import Mathlib

/-!
Shallow embedding of `nv2a-to-pbkit.py`: trace-line interpretation and
command-stream reconstruction pipeline.

Modelling conventions:
* Machine integers in the log are parsed into `Nat` (the script parses
  hexadecimal/decimal tokens into unbounded Python ints; no arithmetic is
  performed on them, so no wrap-around is involved).
* Python floats are never computed with: the script only converts the decoded
  float token of a pretty argument and re-prints it.  We model the conversion
  as acceptance of the token against the Python float grammar (restricted to
  the matched character class, which admits no exponent or nan spellings): a
  rejected token raises ValueError in the source, modelled as the
  corresponding error; an accepted token is carried as its token text.  The
  re-printed spelling (Python str of the converted float) may differ from the
  token text, which only affects the numeral inside an emitted line, never the
  line prefix.
* The three outer line regexes select a dialect and extract groups; a log line
  is modelled as the already-extracted groups (`LogLine`), one constructor per
  dialect, plus `unmatched` for lines matching no dialect.  The inner argument
  grammar of the annotated dialect is modelled character by character, faithful
  to the Python regexes including greedy matching and prefix (`re.match`)
  semantics.
* `print` output is modelled as the list of printed strings, in order.
* Attribute access that raises `AttributeError` in Python (a `PGRAPHComment`
  never initialises the dataclass fields that have no default) is modelled
  with `Option`: `none` is the raised error.
-/

namespace NvToPbkit

/-- Maximum number of pgraph commands per pb_begin/end block (source line 17). -/
def MAX_COMMANDS_PER_FLUSH : Nat := 32

/-- NV097_SET_BEGIN_END register offset (source line 63). -/
def BEGIN_END : Nat := 0x17FC

/-- The fixed allow-list of known stateless graphics operations (source lines 65-75). -/
def STATELESS_COMMANDS : List Nat :=
  [0x00000100, 0x00000110, 0x00000120, 0x0000012C, 0x00000130,
   0x00001710, 0x000017D0, 0x000017FC, 0x00001D70]

/-- Stateful commands holding memory addresses that are probably not portable
(source lines 78-102). -/
def NON_PORTABLE_STATEFUL_COMMANDS : List Nat :=
  [0x00000210, 0x00000214, 0x00001B00, 0x00001B40, 0x00001B80, 0x00001BC0,
   0x00001720, 0x00001724, 0x00001728, 0x0000172C, 0x00001730, 0x00001734,
   0x00001738, 0x0000173C, 0x00001740, 0x00001744, 0x00001748, 0x0000174C,
   0x00001750, 0x00001754, 0x00001758, 0x0000175C, 0x000017C8]

/-- The parsed representation of one trace-log operation (dataclass
`PGRAPHMethod`, source lines 227-241).  `nv_param_float` keeps the matched
float token text rather than a floating point value. -/
structure PGRAPHMethod where
  line_number : Nat
  draw_number : Nat
  nv_channel : Nat
  nv_class : Nat
  nv_op : Nat
  nv_param : Nat
  nv_op_name : Option String := none
  nv_param_float : Option String := none
  nv_param_description : Option String := none
  in_begin_end_block : Bool := false
deriving DecidableEq

/-- Property `is_beginend_begin` (source lines 243-245). -/
def PGRAPHMethod.is_beginend_begin (m : PGRAPHMethod) : Bool :=
  m.nv_class == 0x97 && m.nv_op == BEGIN_END && m.nv_param != 0

/-- Property `is_beginend_end` (source lines 247-249). -/
def PGRAPHMethod.is_beginend_end (m : PGRAPHMethod) : Bool :=
  m.nv_class == 0x97 && m.nv_op == BEGIN_END && m.nv_param == 0

/-- Property `is_stateful` (source lines 251-260). -/
def PGRAPHMethod.is_stateful (m : PGRAPHMethod) : Bool :=
  if m.nv_class != 0x97 then true
  else if m.in_begin_end_block then false
  else !(STATELESS_COMMANDS.contains m.nv_op)

/-- Property `is_non_portable` (source lines 262-264). -/
def PGRAPHMethod.is_non_portable (m : PGRAPHMethod) : Bool :=
  m.nv_class == 0x97 && NON_PORTABLE_STATEFUL_COMMANDS.contains m.nv_op

/-- Python truthiness of an optional string: `None` and the empty string are
falsy.  Used for `if self.nv_op_name:` and `if self.nv_param_description:`. -/
def pyTruthy : Option String → Bool
  | none => false
  | some s => !(s == "")

/-- Upper-case hexadecimal rendering of a natural number, as produced by the
Python format specifier X. -/
def toHexU (n : Nat) : String :=
  String.mk ((Nat.toDigits 16 n).map Char.toUpper)

/-- Template `push1_pbkit` (source lines 105-118). -/
def push1_pbkit (pre : Option String) (nv_op : Nat) (nv_op_name : Option String)
    (nv_param : Nat) (descr : Option String) : String :=
  let p := pre.getD ""
  let opName := match nv_op_name with
    | none => ""
    | some s => "/* " ++ s ++ " */"
  let d := descr.getD ""
  p ++ "p = pb_push1(p, 0x" ++ toHexU nv_op ++ " " ++ opName ++ ", 0x" ++
    toHexU nv_param ++ ");" ++ d

/-- Template `push1f_pbkit` (source lines 121-124); the float parameter is
rendered as its token text, where the source prints the Python str of the
converted float — a possibly different spelling of the numeral, never
affecting the line prefix.  The same holds for the other three float
templates below. -/
def push1f_pbkit (pre : Option String) (nv_op : Nat) (nv_op_name : String)
    (nv_param : String) : String :=
  let p := pre.getD ""
  p ++ "p = pb_push1(p, 0x" ++ toHexU nv_op ++ " /*" ++ nv_op_name ++ "*/, " ++
    nv_param ++ ");"

/-- Template `push_pbkitplusplus` (source lines 127-140). -/
def push_pbkitplusplus (pre : Option String) (nv_op : Nat) (nv_op_name : Option String)
    (nv_param : Nat) (descr : Option String) : String :=
  let p := pre.getD ""
  let opName := match nv_op_name with
    | none => ""
    | some s => "/* " ++ s ++ " */"
  let d := descr.getD ""
  p ++ "Pushbuffer::Push(0x" ++ toHexU nv_op ++ " " ++ opName ++ ", 0x" ++
    toHexU nv_param ++ ");" ++ d

/-- Template `pushf_pbkitplusplus` (source lines 143-156). -/
def pushf_pbkitplusplus (pre : Option String) (nv_op : Nat) (nv_op_name : Option String)
    (nv_param : String) (descr : Option String) : String :=
  let p := pre.getD ""
  let opName := match nv_op_name with
    | none => ""
    | some s => "/* " ++ s ++ " */"
  let d := descr.getD ""
  p ++ "Pushbuffer::Push(0x" ++ toHexU nv_op ++ " " ++ opName ++ ", " ++
    nv_param ++ ");" ++ d

/-- Template `push1_to_pbkit` (source lines 159-171). -/
def push1_to_pbkit (pre : Option String) (nv_channel nv_class nv_op : Nat)
    (nv_op_name : Option String) (nv_param : Nat) : String :=
  let p := pre.getD ""
  let opName := match nv_op_name with
    | none => ""
    | some s => "/* " ++ s ++ " */"
  p ++ "p = pb_push1_to(" ++ toString nv_channel ++ " /* 0x" ++ toHexU nv_class ++
    " */, p, 0x" ++ toHexU nv_op ++ " " ++ opName ++ ", 0x" ++ toHexU nv_param ++ ");"

/-- Template `push1f_to_pbkit` (source lines 174-186); the parameter printed is
the float token text. -/
def push1f_to_pbkit (pre : Option String) (nv_channel nv_class nv_op : Nat)
    (nv_op_name : Option String) (nv_param : String) : String :=
  let p := pre.getD ""
  let opName := match nv_op_name with
    | none => ""
    | some s => "/* " ++ s ++ " */"
  p ++ "p = pb_push1f_to(" ++ toString nv_channel ++ " /* 0x" ++ toHexU nv_class ++
    " */, p, 0x" ++ toHexU nv_op ++ " " ++ opName ++ ", " ++ nv_param ++ ");"

/-- Template `push_to_pbkitplusplus` (source lines 189-206). -/
def push_to_pbkitplusplus (pre : Option String) (nv_channel nv_class nv_op : Nat)
    (nv_op_name : Option String) (nv_param : Nat) (descr : Option String) : String :=
  let p := pre.getD ""
  let opName := match nv_op_name with
    | none => ""
    | some s => "/* " ++ s ++ " */"
  let d := descr.getD ""
  p ++ "Pushbuffer::PushTo(" ++ toString nv_channel ++ " /* 0x" ++ toHexU nv_class ++
    " */, 0x" ++ toHexU nv_op ++ " " ++ opName ++ ", 0x" ++ toHexU nv_param ++ ");" ++ d

/-- Template `pushf_to_pbkitplusplus` (source lines 209-224). -/
def pushf_to_pbkitplusplus (pre : Option String) (nv_channel nv_class nv_op : Nat)
    (nv_op_name : Option String) (nv_param : String) (descr : Option String) : String :=
  let p := pre.getD ""
  let opName := match nv_op_name with
    | none => ""
    | some s => "/* " ++ s ++ " */"
  let d := descr.getD ""
  p ++ "Pushbuffer::PushTo(" ++ toString nv_channel ++ " /* 0x" ++ toHexU nv_class ++
    " */, 0x" ++ toHexU nv_op ++ " " ++ opName ++ ", " ++ nv_param ++ ");" ++ d

/-- Method `PGRAPHMethod.to_c` (source lines 266-316). -/
def PGRAPHMethod.to_c (m : PGRAPHMethod) (retain_non_portable pbkitplusplus : Bool) : String :=
  let pre := if m.is_non_portable && !retain_non_portable
             then "  " ++ "// NONPORTABLE: " else "  "
  if m.nv_class == 0x97 then
    if pyTruthy m.nv_op_name then
      match m.nv_param_float with
      | none =>
        let descr := if pyTruthy m.nv_param_description
                     then "  // " ++ m.nv_param_description.getD "" else ""
        if !pbkitplusplus then
          push1_pbkit (some pre) m.nv_op m.nv_op_name m.nv_param (some descr)
        else
          push_pbkitplusplus (some pre) m.nv_op m.nv_op_name m.nv_param (some descr)
      | some f =>
        if !pbkitplusplus then
          push1f_pbkit (some pre) m.nv_op (m.nv_op_name.getD "") f
        else
          pushf_pbkitplusplus (some pre) m.nv_op m.nv_op_name f none
    else
      if !pbkitplusplus then push1_pbkit (some "//") m.nv_op none m.nv_param none
      else push_pbkitplusplus (some "//") m.nv_op none m.nv_param none
  else
    if pyTruthy m.nv_op_name then
      match m.nv_param_float with
      | none =>
        if !pbkitplusplus then
          push1_to_pbkit (some pre) m.nv_channel m.nv_class m.nv_op m.nv_op_name m.nv_param
        else
          push_to_pbkitplusplus (some pre) m.nv_channel m.nv_class m.nv_op m.nv_op_name
            m.nv_param none
      | some f =>
        if !pbkitplusplus then
          push1f_to_pbkit (some pre) m.nv_channel m.nv_class m.nv_op m.nv_op_name f
        else
          pushf_to_pbkitplusplus (some pre) m.nv_channel m.nv_class m.nv_op m.nv_op_name f none
    else
      if !pbkitplusplus then
        push1_to_pbkit (some pre) m.nv_channel m.nv_class m.nv_op none m.nv_param
      else
        push_to_pbkitplusplus (some pre) m.nv_channel m.nv_class m.nv_op none m.nv_param none

/-- A command record in a processed list: either a parsed `PGRAPHMethod` or a
`PGRAPHComment` Annotation carrying only a display message (source lines
319-326). -/
inductive PGRAPHRecord where
  | method (m : PGRAPHMethod)
  | comment (message : String)
deriving DecidableEq

/-- Method `to_c` on records: `PGRAPHComment.to_c` renders a comment line
(source lines 323-326); a method defers to `PGRAPHMethod.to_c`. -/
def PGRAPHRecord.to_c (rec : PGRAPHRecord) (retain_non_portable pbkitplusplus : Bool) : String :=
  match rec with
  | .method m => m.to_c retain_non_portable pbkitplusplus
  | .comment message => "  // " ++ message

/-- Attribute access `record.is_stateful`.  A `PGRAPHComment` never initialises
`nv_class` (its `__init__` does not call the dataclass initialiser and
`nv_class` has no class-level default), so the property raises
`AttributeError`, modelled as `none`. -/
def PGRAPHRecord.is_stateful_attr : PGRAPHRecord → Option Bool
  | .method m => some m.is_stateful
  | .comment _ => none

/-- Attribute access `record.is_non_portable`; raises `AttributeError` on a
`PGRAPHComment` for the same reason as `is_stateful`. -/
def PGRAPHRecord.is_non_portable_attr : PGRAPHRecord → Option Bool
  | .method m => some m.is_non_portable
  | .comment _ => none

/-! ### Annotated-dialect secondary argument parsing

Character-level embedding of the five argument regexes (source lines 40-54)
under `re.match` (anchored prefix) semantics.  In each regex every greedy
repetition is followed by a disjoint character class, so maximal munch is
exact, except for the bitvector pattern whose greedy dot is embedded by
searching the rightmost closing brace with a valid tail. -/

/-- Python regex class \s, ASCII range. -/
def pySpace (c : Char) : Bool :=
  c == ' ' || c == '\t' || c == '\n' || c == '\x0d' || c == '\x0b' || c == '\x0c'

/-- Python regex class [0-9a-fA-F]. -/
def pyHexDigit (c : Char) : Bool :=
  c.isDigit || ('a' ≤ c && c ≤ 'f') || ('A' ≤ c && c ≤ 'F')

/-- Python regex class \w, ASCII range. -/
def pyWord (c : Char) : Bool := c.isAlphanum || c == '_'

/-- Python regex class [-+0-9.]. -/
def pyFloatChar (c : Char) : Bool := c == '-' || c == '+' || c == '.' || c.isDigit

/-- Python regex class dot: any character except a newline. -/
def pyDot (c : Char) : Bool := c != '\n'

/-- Match one-or-more characters of class `p` (greedy); fails on zero. -/
def span1 (p : Char → Bool) (cs : List Char) : Option (List Char × List Char) :=
  match cs.takeWhile p with
  | [] => none
  | t => some (t, cs.dropWhile p)

/-- Match a literal character sequence. -/
def dropPre : List Char → List Char → Option (List Char)
  | [], cs => some cs
  | _ :: _, [] => none
  | l :: ls, c :: cs => if c == l then dropPre ls cs else none

/-- Numeric value of a hex digit character. -/
def hexDigitVal (c : Char) : Nat :=
  if c.isDigit then c.toNat - '0'.toNat
  else if 'a' ≤ c && c ≤ 'f' then c.toNat - 'a'.toNat + 10
  else c.toNat - 'A'.toNat + 10

/-- Value of a hex digit string, as computed by Python int(s, 16). -/
def hexToNat (ds : List Char) : Nat :=
  ds.foldl (fun n c => n * 16 + hexDigitVal c) 0

/-- Embedding of `_PRETTY_ARGUMENT_FLOAT_RE` (hex value, arrow, float token);
returns the hex digits and the float token. -/
def floatArgMatch (cs : List Char) : Option (List Char × List Char) := do
  let cs1 ← dropPre ['0', 'x'] cs
  let (ds, cs2) ← span1 pyHexDigit cs1
  let (_, cs3) ← span1 pySpace cs2
  let cs4 ← dropPre ['=', '>'] cs3
  let (_, cs5) ← span1 pySpace cs4
  let (fs, _) ← span1 pyFloatChar cs5
  pure (ds, fs)

/-- Tail of the bitvector pattern after the closing brace: whitespace then an
angle-bracketed hex value; returns the hex digits. -/
def bvTail (cs : List Char) : Option (List Char) := do
  let (_, cs1) ← span1 pySpace cs
  let cs2 ← dropPre ['<', '0', 'x'] cs1
  let (ds, cs3) ← span1 pyHexDigit cs2
  let _ ← dropPre ['>'] cs3
  pure ds

/-- Greedy search for the rightmost closing brace whose tail matches `bvTail`;
returns the body before that brace and the hex digits of the tail.  Body
characters are restricted to the dot class. -/
def bvBody : List Char → Option (List Char × List Char)
  | [] => none
  | c :: rest =>
    (if pyDot c then (bvBody rest).map (fun r => (c :: r.1, r.2)) else none) <|>
    (if c == '\x7d' then (bvTail rest).map (fun ds => ([], ds)) else none)

/-- Embedding of `PRETTY_ARGUMENT_BITVECTOR_RE`; returns the braced group text
and the hex digits. -/
def bitvecArgMatch (cs : List Char) : Option (List Char × List Char) :=
  match cs with
  | '\x7b' :: rest =>
    match bvBody rest with
    | some ([], _) => none
    | some (body, ds) => some ('\x7b' :: body ++ ['\x7d'], ds)
    | none => none
  | _ => none

/-- Embedding of `_PRETTY_ARGUMENT_NAMED_VALUE_RE`; returns the symbol and the
hex digits. -/
def namedArgMatch (cs : List Char) : Option (List Char × List Char) := do
  let (ws, cs1) ← span1 pyWord cs
  let cs2 ← dropPre ['<', '0', 'x'] cs1
  let (ds, cs3) ← span1 pyHexDigit cs2
  let _ ← dropPre ['>'] cs3
  pure (ws, ds)

/-- Embedding of `_PRETTY_ARGUMENT_HEX_VALUE_RE`; returns the hex digits. -/
def hexArgMatch (cs : List Char) : Option (List Char) := do
  let cs1 ← dropPre ['0', 'x'] cs
  let (ds, _) ← span1 pyHexDigit cs1
  pure ds

/-- Embedding of `_PRETTY_ARGUMENT_RAW_VALUE_RE`; returns the hex digits. -/
def rawValArgMatch (cs : List Char) : Option (List Char) := do
  let (_, cs1) ← span1 (fun c => !pySpace c) cs
  let (_, cs2) ← span1 pySpace cs1
  let cs3 ← dropPre ['<', '0', 'x'] cs2
  let (ds, cs4) ← span1 pyHexDigit cs3
  let _ ← dropPre ['>'] cs4
  pure ds

/-- Acceptance of an unsigned Python float literal drawn from the character
class of the float token (digits and points only, after the optional sign):
one or more digits optionally followed by a point and further digits, or a
point followed by one or more digits. -/
def pyFloatLiteralBody (body : List Char) : Bool :=
  match body.dropWhile Char.isDigit with
  | [] => !(body.takeWhile Char.isDigit).isEmpty
  | '.' :: rest =>
    (!(body.takeWhile Char.isDigit).isEmpty || !rest.isEmpty) && rest.all Char.isDigit
  | _ => false

/-- Acceptance of the Python float() conversion on a token matched by the
float character class: an optional single leading sign, then a float literal
body.  The class admits no exponent, infinity or nan spellings, so this is
exactly where float() succeeds on such tokens. -/
def pyFloatOk (cs : List Char) : Bool :=
  match cs with
  | '-' :: rest => pyFloatLiteralBody rest
  | '+' :: rest => pyFloatLiteralBody rest
  | rest => pyFloatLiteralBody rest

/-- Function `_process_pretty_param` (source lines 329-351): the five argument
sub-forms tried in priority order.  The float arm converts the arrow token
with Python float(): a token rejected by the conversion raises `ValueError`
(modelled as the error carrying the CPython message); an accepted token is
carried as its text.  When none of the five sub-forms match, the function
raises `NotImplementedError`, modelled as `Except.error` carrying the
message. -/
def _process_pretty_param (param : String) : Except String (Nat × String × Option String) :=
  match floatArgMatch param.data with
  | some (ds, fs) =>
    if pyFloatOk fs then .ok (hexToNat ds, "", some (String.mk fs))
    else .error ("could not convert string to float: " ++ "\x27" ++ String.mk fs ++ "\x27")
  | none =>
  match bitvecArgMatch param.data with
  | some (g1, ds) => .ok (hexToNat ds, String.mk g1, none)
  | none =>
  match namedArgMatch param.data with
  | some (ws, ds) => .ok (hexToNat ds, String.mk ws, none)
  | none =>
  match hexArgMatch param.data with
  | some ds => .ok (hexToNat ds, "", none)
  | none =>
  match rawValArgMatch param.data with
  | some ds => .ok (hexToNat ds, "", none)
  | none => .error ("Failed to process pretty param " ++ "\x27" ++ param ++ "\x27")

/-! ### Line parsing and stream tracking -/

/-- One input line, as recognised by the outer dialect regexes: the extracted
match groups of `_PGRAPH_METHOD_RE` (`raw`), `_PRETTY_PGRAPH_METHOD_RE`
(`pretty`, keeping the parenthesised argument text unparsed), or
`_UNHANDLED_METHOD_RE` (`unhandled`); `unmatched` is a line matching no
dialect. -/
inductive LogLine where
  | raw (channel cls op : Nat) (name : Option String) (param : Nat)
  | pretty (channel cls : Nat) (name : String) (op : Nat) (argText : String)
  | unhandled (channel cls op param : Nat)
  | unmatched
deriving DecidableEq

/-- Build the method record for one line given the current line number, draw
number and begin/end flag: the match arms of `_process_file` (source lines
363-406).  `ok none` is a skipped line, `error` propagates a pretty-argument
failure. -/
def parseLine (ln dn : Nat) (ib : Bool) : LogLine → Except String (Option PGRAPHMethod)
  | .raw ch cls op nm param =>
    .ok (some { line_number := ln, draw_number := dn, nv_channel := ch, nv_class := cls,
                nv_op := op, nv_param := param, nv_op_name := nm,
                in_begin_end_block := ib })
  | .pretty ch cls nm op arg =>
    match _process_pretty_param arg with
    | .error e => .error e
    | .ok (param, descr, fl) =>
      .ok (some { line_number := ln, draw_number := dn, nv_channel := ch, nv_class := cls,
                  nv_op := op, nv_param := param, nv_op_name := some nm,
                  nv_param_float := fl, nv_param_description := some descr,
                  in_begin_end_block := ib })
  | .unhandled ch cls op param =>
    .ok (some { line_number := ln, draw_number := dn, nv_channel := ch, nv_class := cls,
                nv_op := op, nv_param := param, in_begin_end_block := ib })
  | .unmatched => .ok none

/-- The per-line loop of `_process_file` (source lines 354-418), threading the
line counter, the draw counter and the begin/end flag.  The two sequential
flag updates of the source (set on a begin marker, then clear and count on an
end marker) are combined into one nested conditional, which computes the same
state. -/
def processGo (ln dn : Nat) (ib : Bool) : List LogLine → Except String (List PGRAPHMethod)
  | [] => .ok []
  | l :: rest =>
    match parseLine ln dn ib l with
    | .error e => .error e
    | .ok none => processGo (ln + 1) dn ib rest
    | .ok (some m) =>
      match processGo (ln + 1) (if m.is_beginend_end then dn + 1 else dn)
          (if m.is_beginend_end then false
           else if m.is_beginend_begin then true else ib) rest with
      | .error e => .error e
      | .ok ms => .ok (m :: ms)

/-- Function `_process_file`: parse a log into the ordered command list,
starting at line 1, draw number 1, outside any begin/end block. -/
def _process_file (lines : List LogLine) : Except String (List PGRAPHMethod) :=
  processGo 1 1 false lines

/-! ### Draw-range filter -/

/-- Assignment `stateful_commands[command.nv_op] = command` on a Python dict,
modelled as an insertion-ordered association list: overwriting an existing key
keeps its original position, a new key is appended at the end. -/
def dictInsert : List (Nat × PGRAPHMethod) → PGRAPHMethod → List (Nat × PGRAPHMethod)
  | [], c => [(c.nv_op, c)]
  | e :: d, c => if e.1 == c.nv_op then (c.nv_op, c) :: d else e :: dictInsert d c

/-- The scan loop of `_filter_draws` (source lines 435-444) with its early
break, accumulating the stateful dict and the retained window commands. -/
def filterLoop (sd ed : Nat) : List PGRAPHMethod → List (Nat × PGRAPHMethod) →
    List PGRAPHMethod → List (Nat × PGRAPHMethod) × List PGRAPHMethod
  | [], d, r => (d, r)
  | c :: rest, d, r =>
    if c.draw_number < sd then
      filterLoop sd ed rest (if c.is_stateful then dictInsert d c else d) r
    else if ed ≤ c.draw_number then (d, r)
    else filterLoop sd ed rest d (r ++ [c])

/-- The comparator of `sorted(..., key=lambda cmd: cmd.line_number)`: a stable
sort by this comparator is a stable sort on the line-number key. -/
def lineLe (a b : PGRAPHMethod) : Bool := a.line_number ≤ b.line_number

/-- Function `_filter_draws` (source lines 428-451): hoist the last-writer-wins
stateful commands before the window, sort them by line number, append the
marker Annotation, then the in-window commands. -/
def _filter_draws (commands : List PGRAPHMethod) (start_draw max_draws : Nat) :
    List PGRAPHRecord :=
  let st := filterLoop start_draw (start_draw + max_draws) commands [] []
  let state_commands := (st.1.map Prod.snd).mergeSort lineLe
  (state_commands.map PGRAPHRecord.method ++ [PGRAPHRecord.comment "END OF SETUP COMMANDS"])
    ++ st.2.map PGRAPHRecord.method

/-! ### Claim-side characterisations of the filter

`lwwState` is written from the specification words (last-writer-wins per
operation over the commands before the window, kept in line-number order), to
be compared with the dict-based `_filter_draws` above. -/

/-- Last element of a method list carrying operation `k`, if any. -/
def lastWith (k : Nat) : List PGRAPHMethod → Option PGRAPHMethod
  | [] => none
  | c :: cs => (lastWith k cs) <|> (if c.nv_op == k then some c else none)

/-- Keep only the last occurrence of each operation, preserving order. -/
def keepLast : List PGRAPHMethod → List PGRAPHMethod
  | [] => []
  | c :: cs =>
    if cs.any (fun c2 => c2.nv_op == c.nv_op) then keepLast cs else c :: keepLast cs

/-- Specification-side description of the hoisted state commands: for each
distinct stateful operation seen before draw `S`, the last occurrence, in
original (line-number) order. -/
def lwwState (l : List PGRAPHMethod) (S : Nat) : List PGRAPHMethod :=
  keepLast (l.filter (fun c => decide (c.draw_number < S) && c.is_stateful))

/-- Dict lookup on the association-list model of the Python dict. -/
def dlookup (d : List (Nat × PGRAPHMethod)) (k : Nat) : Option PGRAPHMethod :=
  (d.find? (fun e => e.1 == k)).map Prod.snd

/-- Relation between two consecutive records produced by the stream tracker:
the draw number increments exactly after an end marker, and the begin/end flag
of the next record is the flag of the previous one updated by its marker
role. -/
def stepRel (a b : PGRAPHMethod) : Prop :=
  b.draw_number = a.draw_number + (if a.is_beginend_end then 1 else 0) ∧
  b.in_begin_end_block = (if a.is_beginend_end then false
                          else if a.is_beginend_begin then true
                          else a.in_begin_end_block)

/-- A log line whose pretty argument, if any, parses successfully. -/
def prettyLineOk : LogLine → Prop
  | .pretty _ _ _ _ arg => (_process_pretty_param arg).isOk = true
  | _ => True

/-! ### Code emitter -/

/-- The busy-wait line printed between a flush and a reopen. -/
def busyWaitLine : String := "  while (pb_busy()) \x7b\x7d"

/-- The three lines of a forced flush/reopen sequence (source lines 469-471). -/
def flushLines : List String := ["  pb_end(p);", busyWaitLine, "  p = pb_begin();"]

/-- The command loop of `_emit_commands` (source lines 463-472), threading
`processed_since_last_flush`. -/
def emitLoop (retain ppp : Bool) (count : Nat) : List PGRAPHRecord → List String
  | [] => []
  | c :: rest =>
    let line := c.to_c retain ppp
    if !ppp then
      if count + 1 > MAX_COMMANDS_PER_FLUSH then
        line :: (flushLines ++ emitLoop retain ppp 0 rest)
      else
        line :: emitLoop retain ppp (count + 1) rest
    else line :: emitLoop retain ppp count rest

/-- Function `_emit_commands` (source lines 454-477): the printed lines, in
order. -/
def _emit_commands (commands : List PGRAPHRecord) (retain_non_portable : Bool)
    (pbkitplusplus : Bool) : List String :=
  (if !pbkitplusplus then ["  uint32_t *p;", "  p = pb_begin();"]
   else ["  Pushbuffer::Begin();"])
  ++ emitLoop retain_non_portable pbkitplusplus 0 commands
  ++ (if !pbkitplusplus then ["  pb_end(p);"] else ["  Pushbuffer::End();"])

/-! ### Concrete demonstration inputs -/

/-- A two-line raw log: an end marker with nothing before it, then an ordinary
graphics command. -/
def c2Lines : List LogLine :=
  [.raw 0 0x97 0x17FC none 0, .raw 0 0x97 0x200 none 7]

/-- The parsed record list of `c2Lines`. -/
def c2Rs : List PGRAPHMethod :=
  [{ line_number := 1, draw_number := 1, nv_channel := 0, nv_class := 0x97,
     nv_op := 0x17FC, nv_param := 0 },
   { line_number := 2, draw_number := 2, nv_channel := 0, nv_class := 0x97,
     nv_op := 0x200, nv_param := 7 }]

/-- The record parsed from a single unmatched end-marker line. -/
def c3Method : PGRAPHMethod :=
  { line_number := 1, draw_number := 1, nv_channel := 0, nv_class := 0x97,
    nv_op := 0x17FC, nv_param := 0 }

/-- A log with a begin marker followed by its end marker. -/
def c3wLines : List LogLine :=
  [.raw 0 0x97 0x17FC none 1, .raw 0 0x97 0x17FC none 0]

/-- The parsed record list of `c3wLines`. -/
def c3wRs : List PGRAPHMethod :=
  [{ line_number := 1, draw_number := 1, nv_channel := 0, nv_class := 0x97,
     nv_op := 0x17FC, nv_param := 1 },
   { line_number := 2, draw_number := 1, nv_channel := 0, nv_class := 0x97,
     nv_op := 0x17FC, nv_param := 0, in_begin_end_block := true }]

/-- A log with an ordinary command, an unmatched end marker, then another
command. -/
def c10Lines : List LogLine :=
  [.raw 1 0x39 0x0 none 0x14cf0, .raw 0 0x97 0x17FC none 0,
   .raw 0 0x97 0x200 none 7]

/-- The parsed record list of `c10Lines`. -/
def c10Rs : List PGRAPHMethod :=
  [{ line_number := 1, draw_number := 1, nv_channel := 1, nv_class := 0x39,
     nv_op := 0x0, nv_param := 0x14cf0 },
   { line_number := 2, draw_number := 1, nv_channel := 0, nv_class := 0x97,
     nv_op := 0x17FC, nv_param := 0 },
   { line_number := 3, draw_number := 2, nv_channel := 0, nv_class := 0x97,
     nv_op := 0x200, nv_param := 7 }]

/-- An out-of-range-class record used to witness the classifier claim. -/
def c4Method : PGRAPHMethod :=
  { line_number := 1, draw_number := 1, nv_channel := 1, nv_class := 0x39,
    nv_op := 0x0, nv_param := 0x14cf0 }

/-- A one-command list used to refute the trailing-marker reading of the
filter identity. -/
def c6Method : PGRAPHMethod :=
  { line_number := 1, draw_number := 1, nv_channel := 0, nv_class := 0x97,
    nv_op := 0x200, nv_param := 7 }

/-- A three-command list with two writes to the same stateful operation before
draw 2 and one command in draw 2. -/
def c1L : List PGRAPHMethod :=
  [{ line_number := 1, draw_number := 1, nv_channel := 0, nv_class := 0x97,
     nv_op := 0x1A0, nv_param := 1 },
   { line_number := 2, draw_number := 1, nv_channel := 0, nv_class := 0x97,
     nv_op := 0x1A0, nv_param := 2 },
   { line_number := 3, draw_number := 2, nv_channel := 0, nv_class := 0x97,
     nv_op := 0x200, nv_param := 3 }]

/-- A two-command list with one stateful write before draw 2 and one command
in draw 2. -/
def c9L : List PGRAPHMethod :=
  [{ line_number := 1, draw_number := 1, nv_channel := 0, nv_class := 0x97,
     nv_op := 0x1A0, nv_param := 1 },
   { line_number := 2, draw_number := 2, nv_channel := 0, nv_class := 0x97,
     nv_op := 0x200, nv_param := 3 }]

/-- A plain graphics command for exercising the emitter. -/
def c5Cmd : PGRAPHRecord :=
  .method { line_number := 1, draw_number := 1, nv_channel := 0, nv_class := 0x97,
            nv_op := 0x100, nv_param := 0 }

/-- Sixty-five commands to emit. -/
def c5List : List PGRAPHRecord := List.replicate 65 c5Cmd

/-! ## Theorems -/

/-- The record built for one line carries the current line number, draw number
and begin/end flag. -/
theorem parseLine_fields {ln dn : Nat} {ib : Bool} {l : LogLine} {m : PGRAPHMethod}
    (h : parseLine ln dn ib l = .ok (some m)) :
    m.line_number = ln ∧ m.draw_number = dn ∧ m.in_begin_end_block = ib := by
  cases l with
  | raw ch cls op nm param =>
    simp only [parseLine, Except.ok.injEq, Option.some.injEq] at h
    subst h; exact ⟨rfl, rfl, rfl⟩
  | pretty ch cls nm op arg =>
    rcases hp : _process_pretty_param arg with e | ⟨param, descr, fl⟩
    · simp [parseLine, hp] at h
    · simp only [parseLine, hp, Except.ok.injEq, Option.some.injEq] at h
      subst h; exact ⟨rfl, rfl, rfl⟩
  | unhandled ch cls op param =>
    simp only [parseLine, Except.ok.injEq, Option.some.injEq] at h
    subst h; exact ⟨rfl, rfl, rfl⟩
  | unmatched => simp [parseLine] at h

/-- Core invariant of the stream tracker: the first produced record carries the
current draw number and flag, and consecutive records are related by
`stepRel`. -/
theorem processGo_chain : ∀ (lines : List LogLine) (ln dn : Nat) (ib : Bool)
    (rs : List PGRAPHMethod), processGo ln dn ib lines = .ok rs →
    (∀ r ∈ rs.head?, r.draw_number = dn ∧ r.in_begin_end_block = ib) ∧
    List.Chain' stepRel rs := by
  intro lines
  induction lines with
  | nil =>
    intro ln dn ib rs h
    simp only [processGo, Except.ok.injEq] at h
    subst h; simp
  | cons l rest ih =>
    intro ln dn ib rs h
    simp only [processGo] at h
    split at h
    · exact absurd h (by simp)
    · exact ih (ln + 1) dn ib rs h
    · rename_i m hm
      split at h
      · exact absurd h (by simp)
      · rename_i ms hr
        simp only [Except.ok.injEq] at h
        subst h
        obtain ⟨hfields1, hfields2, hfields3⟩ := parseLine_fields hm
        obtain ⟨ihh, ihc⟩ := ih _ _ _ _ hr
        constructor
        · intro r hr2
          simp only [List.head?_cons, Option.mem_def, Option.some.injEq] at hr2
          subst hr2
          exact ⟨hfields2, hfields3⟩
        · rw [List.chain'_cons']
          refine ⟨?_, ihc⟩
          intro b hb
          obtain ⟨hb1, hb2⟩ := ihh b hb
          constructor
          · rw [hb1, hfields2]
            by_cases he : m.is_beginend_end <;> simp [he]
          · rw [hb2, hfields3]

/-- A record is never both a begin marker and an end marker. -/
theorem not_begin_and_end (m : PGRAPHMethod) :
    ¬(m.is_beginend_begin = true ∧ m.is_beginend_end = true) := by
  rintro ⟨h1, h2⟩
  simp only [PGRAPHMethod.is_beginend_begin, Bool.and_eq_true, bne_iff_ne,
    beq_iff_eq] at h1
  simp only [PGRAPHMethod.is_beginend_end, Bool.and_eq_true, beq_iff_eq] at h2
  exact h1.2 h2.2

/-- Draw numbers are non-decreasing along a `stepRel` chain. -/
theorem chain_draw_le {rs : List PGRAPHMethod} (hc : List.Chain' stepRel rs) :
    rs.Pairwise (fun a b => a.draw_number ≤ b.draw_number) := by
  haveI : IsTrans PGRAPHMethod (fun a b : PGRAPHMethod => a.draw_number ≤ b.draw_number) :=
    ⟨fun a b c h1 h2 => Nat.le_trans h1 h2⟩
  refine List.chain'_iff_pairwise.mp (hc.imp ?_)
  intro a b hab
  rw [hab.1]
  omega

/-- C2: in every successfully parsed command list the draw number of the first
record is 1; draw numbers are monotonically non-decreasing; and between
consecutive records the draw number increments by exactly 1 when the earlier
record is an end marker and is unchanged otherwise — so the end marker itself
still carries the number of the draw it closes. -/
theorem draw_number_start_and_increments (lines : List LogLine)
    (rs : List PGRAPHMethod) (h : _process_file lines = .ok rs) :
    (∀ r ∈ rs.head?, r.draw_number = 1) ∧
    rs.Pairwise (fun a b => a.draw_number ≤ b.draw_number) ∧
    (∀ i (hi : i + 1 < rs.length),
      (rs.get ⟨i + 1, hi⟩).draw_number =
        (rs.get ⟨i, by omega⟩).draw_number +
          (if (rs.get ⟨i, by omega⟩).is_beginend_end then 1 else 0)) := by
  obtain ⟨hh, hc⟩ := processGo_chain lines 1 1 false rs h
  refine ⟨fun r hr => (hh r hr).1, chain_draw_le hc, ?_⟩
  intro i hi
  have hstep : stepRel (rs.get ⟨i, by omega⟩) (rs.get ⟨i + 1, hi⟩) :=
    List.chain'_iff_get.mp hc i (by omega)
  exact hstep.1

/-- C2 witness: on the concrete log `c2Lines` the draw number increments by
exactly 1 across its end marker. -/
theorem draw_number_start_and_increments_witness :
    (c2Rs.get ⟨1, by decide⟩).draw_number =
      (c2Rs.get ⟨0, by decide⟩).draw_number +
        (if (c2Rs.get ⟨0, by decide⟩).is_beginend_end then 1 else 0) :=
  (draw_number_start_and_increments c2Lines c2Rs (by rfl)).2.2 0 (by decide)

/-- The begin/end flag of each record is set exactly when some earlier record
is a begin marker with no end marker strictly between the two, given that the
first record starts with a cleared flag and consecutive records follow
`stepRel`. -/
theorem span_open_iff (rs : List PGRAPHMethod)
    (h0 : ∀ r ∈ rs.head?, r.in_begin_end_block = false)
    (hc : List.Chain' stepRel rs) :
    ∀ i (hi : i < rs.length),
      ((rs.get ⟨i, hi⟩).in_begin_end_block = true ↔
        ∃ j, ∃ hj : j < i, (rs.get ⟨j, by omega⟩).is_beginend_begin = true ∧
          ∀ k, ∀ hk : k < i, j < k → (rs.get ⟨k, by omega⟩).is_beginend_end = false) := by
  intro i
  induction i with
  | zero =>
    intro hi
    constructor
    · intro hflag
      exfalso
      cases rs with
      | nil => exact absurd hi (by simp)
      | cons a t =>
        have ha : ((a :: t).get ⟨0, hi⟩) = a := rfl
        rw [ha, h0 a (by simp)] at hflag
        exact absurd hflag (by simp)
    · rintro ⟨j, hj, _⟩
      exact absurd hj (Nat.not_lt_zero j)
  | succ i ihs =>
    intro hi
    have hi' : i < rs.length := Nat.lt_of_succ_lt hi
    have hstep : stepRel (rs.get ⟨i, hi'⟩) (rs.get ⟨i + 1, hi⟩) :=
      List.chain'_iff_get.mp hc i (by omega)
    obtain ⟨_, hflag⟩ := hstep
    by_cases hE : (rs.get ⟨i, hi'⟩).is_beginend_end = true
    · rw [hflag]
      simp only [hE, if_true]
      constructor
      · intro hfalse
        exact absurd hfalse (by simp)
      · rintro ⟨j, hj, hbegin, hnoend⟩
        exfalso
        by_cases hji : j = i
        · subst hji
          have hb : (rs.get ⟨j, hi'⟩).is_beginend_begin = true := hbegin
          exact not_begin_and_end _ ⟨hb, hE⟩
        · have h2 : (rs.get ⟨i, hi'⟩).is_beginend_end = false :=
            hnoend i (by omega) (by omega)
          rw [hE] at h2
          exact absurd h2 (by simp)
    · have hEf : (rs.get ⟨i, hi'⟩).is_beginend_end = false := by
        cases hb : (rs.get ⟨i, hi'⟩).is_beginend_end
        · rfl
        · exact absurd hb hE
      by_cases hB : (rs.get ⟨i, hi'⟩).is_beginend_begin = true
      · rw [hflag]
        simp only [hEf, hB, if_true, Bool.false_eq_true, if_false]
        constructor
        · intro _
          refine ⟨i, Nat.lt_succ_self i, hB, ?_⟩
          intro k hk hik
          exact absurd hik (by omega)
        · intro _
          trivial
      · have hBf : (rs.get ⟨i, hi'⟩).is_beginend_begin = false := by
          cases hb : (rs.get ⟨i, hi'⟩).is_beginend_begin
          · rfl
          · exact absurd hb hB
        rw [hflag]
        simp only [hEf, hBf, Bool.false_eq_true, if_false]
        rw [ihs hi']
        constructor
        · rintro ⟨j, hj, hbegin, hnoend⟩
          refine ⟨j, by omega, hbegin, ?_⟩
          intro k hk hjk
          by_cases hki : k = i
          · subst hki
            exact hEf
          · exact hnoend k (by omega) hjk
        · rintro ⟨j, hj, hbegin, hnoend⟩
          have hji : j ≠ i := by
            intro hji
            subst hji
            have hb : (rs.get ⟨j, hi'⟩).is_beginend_begin = true := hbegin
            rw [hBf] at hb
            exact absurd hb (by simp)
          refine ⟨j, by omega, hbegin, ?_⟩
          intro k hk hjk
          exact hnoend k (by omega) hjk

/-- C3 (amended): for every parsed command list, a record has
`in_begin_end_block = true` exactly when some earlier record is a begin marker
with no end marker strictly between the two.  In particular the flag is false
outside every begin/end span and true strictly inside one; the end marker
closing an open span carries true and the begin marker opening a span carries
false; but an unmatched end marker carries false and a begin marker arriving
inside an already open span carries true. -/
theorem in_begin_end_block_iff (lines : List LogLine) (rs : List PGRAPHMethod)
    (h : _process_file lines = .ok rs) (i : Nat) (hi : i < rs.length) :
    (rs.get ⟨i, hi⟩).in_begin_end_block = true ↔
      ∃ j, ∃ hj : j < i, (rs.get ⟨j, by omega⟩).is_beginend_begin = true ∧
        ∀ k, ∀ hk : k < i, j < k → (rs.get ⟨k, by omega⟩).is_beginend_end = false := by
  obtain ⟨hh, hc⟩ := processGo_chain lines 1 1 false rs h
  exact span_open_iff rs (fun r hr => (hh r hr).2) hc i hi

/-- C3 counterexample: a log consisting of a single unmatched end marker
parses to one record which is an end marker but whose `in_begin_end_block` is
false, contradicting the claim that the end marker itself always carries
true. -/
theorem unmatched_end_flag_cex :
    _process_file [LogLine.raw 0 0x97 0x17FC none 0] = .ok [c3Method] ∧
    c3Method.is_beginend_end = true ∧
    ¬(c3Method.in_begin_end_block = true) :=
  ⟨by rfl, by decide, by decide⟩

/-- C3 witness: in the two-record log `c3wLines` the end marker that closes
the span opened by the begin marker carries `in_begin_end_block = true`. -/
theorem in_begin_end_block_iff_witness :
    (c3wRs.get ⟨1, by decide⟩).in_begin_end_block = true :=
  (in_begin_end_block_iff c3wLines c3wRs (by rfl) 1 (by decide)).mpr
    ⟨0, by decide, by decide, fun k hk h0k => absurd h0k (by omega)⟩

/-- Parsing always succeeds when every annotated-dialect argument in the log
parses; in particular begin/end framing never causes a failure. -/
theorem processGo_total : ∀ (lines : List LogLine) (ln dn : Nat) (ib : Bool),
    (∀ l ∈ lines, prettyLineOk l) → ∃ rs, processGo ln dn ib lines = .ok rs := by
  intro lines
  induction lines with
  | nil =>
    intro ln dn ib _
    exact ⟨[], rfl⟩
  | cons l rest ih =>
    intro ln dn ib hok
    have hokrest : ∀ x ∈ rest, prettyLineOk x := fun x hx => hok x (List.mem_cons_of_mem l hx)
    rcases hl : parseLine ln dn ib l with e | mo
    · exfalso
      have hokl := hok l (List.mem_cons_self l rest)
      cases l with
      | pretty ch cls nm op arg =>
        rcases hp : _process_pretty_param arg with e2 | ⟨p1, p2, p3⟩
        · simp only [prettyLineOk] at hokl
          rw [hp] at hokl
          simp [Except.isOk, Except.toBool] at hokl
        · simp [parseLine, hp] at hl
      | raw ch cls op nm param => simp [parseLine] at hl
      | unhandled ch cls op param => simp [parseLine] at hl
      | unmatched => simp [parseLine] at hl
    · cases mo with
      | none =>
        obtain ⟨ms, hms⟩ := ih (ln + 1) dn ib hokrest
        exact ⟨ms, by simp only [processGo, hl]; rw [hms]⟩
      | some m =>
        obtain ⟨ms, hms⟩ := ih (ln + 1) (if m.is_beginend_end then dn + 1 else dn)
          (if m.is_beginend_end then false else if m.is_beginend_begin then true else ib)
          hokrest
        exact ⟨m :: ms, by simp only [processGo, hl]; rw [hms]⟩

/-- C10: an end marker observed while no begin/end region is open (no earlier
begin marker left unclosed) still closes a draw: it carries
`in_begin_end_block = false` and the very next record has its draw number
incremented by 1; moreover the parser never fails on framing — it succeeds on
every log whose annotated arguments parse. -/
theorem end_marker_without_open_region (lines : List LogLine)
    (rs : List PGRAPHMethod) (h : _process_file lines = .ok rs)
    (i : Nat) (hi : i < rs.length)
    (hend : (rs.get ⟨i, hi⟩).is_beginend_end = true)
    (hopen : ¬∃ j, ∃ hj : j < i, (rs.get ⟨j, by omega⟩).is_beginend_begin = true ∧
        ∀ k, ∀ hk : k < i, j < k → (rs.get ⟨k, by omega⟩).is_beginend_end = false) :
    (rs.get ⟨i, hi⟩).in_begin_end_block = false ∧
    (∀ hi1 : i + 1 < rs.length,
      (rs.get ⟨i + 1, hi1⟩).draw_number = (rs.get ⟨i, hi⟩).draw_number + 1) ∧
    ∀ lines2 : List LogLine, (∀ l ∈ lines2, prettyLineOk l) →
      ∃ rs2, _process_file lines2 = .ok rs2 := by
  obtain ⟨hh, hc⟩ := processGo_chain lines 1 1 false rs h
  refine ⟨?_, ?_, ?_⟩
  · have hiff := span_open_iff rs (fun r hr => (hh r hr).2) hc i hi
    cases hb : (rs.get ⟨i, hi⟩).in_begin_end_block
    · rfl
    · exact absurd (hiff.mp hb) hopen
  · intro hi1
    have hstep : stepRel (rs.get ⟨i, hi⟩) (rs.get ⟨i + 1, hi1⟩) :=
      List.chain'_iff_get.mp hc i (by omega)
    rw [hstep.1, if_pos hend]
  · intro lines2 hok
    exact processGo_total lines2 1 1 false hok

/-- C10 witness: in the concrete log `c10Lines` the unmatched end marker
increments the draw number of the following record. -/
theorem end_marker_without_open_region_witness :
    (c10Rs.get ⟨2, by decide⟩).draw_number = (c10Rs.get ⟨1, by decide⟩).draw_number + 1 :=
  (end_marker_without_open_region c10Lines c10Rs (by rfl) 1 (by decide) (by decide)
    (by rintro ⟨j, hj, hb, -⟩
        have hj0 : j = 0 := by omega
        subst hj0
        have hb2 : (c10Rs.get ⟨0, by decide⟩).is_beginend_begin = true := hb
        exact absurd hb2 (by decide))).2.1 (by decide)

/-- Records carry line numbers bounded below by the current line counter, and
strictly increasing along the list. -/
theorem processGo_lines : ∀ (lines : List LogLine) (ln dn : Nat) (ib : Bool)
    (rs : List PGRAPHMethod), processGo ln dn ib lines = .ok rs →
    (∀ r ∈ rs, ln ≤ r.line_number) ∧
    rs.Pairwise (fun a b => a.line_number < b.line_number) := by
  intro lines
  induction lines with
  | nil =>
    intro ln dn ib rs h
    simp only [processGo, Except.ok.injEq] at h
    subst h
    simp
  | cons l rest ih =>
    intro ln dn ib rs h
    simp only [processGo] at h
    split at h
    · exact absurd h (by simp)
    · obtain ⟨hlb, hpw⟩ := ih (ln + 1) dn ib rs h
      exact ⟨fun r hr => Nat.le_of_succ_le (hlb r hr), hpw⟩
    · rename_i m hm
      split at h
      · exact absurd h (by simp)
      · rename_i ms hr
        simp only [Except.ok.injEq] at h
        subst h
        obtain ⟨hline, -, -⟩ := parseLine_fields hm
        obtain ⟨hlb, hpw⟩ := ih _ _ _ _ hr
        constructor
        · intro r hr2
          rcases List.mem_cons.mp hr2 with rfl | hr2
          · omega
          · exact Nat.le_of_succ_le (hlb r hr2)
        · rw [List.pairwise_cons]
          exact ⟨fun b hb => by have := hlb b hb; omega, hpw⟩

/-- Every successfully parsed command list satisfies the two order invariants
the draw-range filter theorems assume: non-decreasing draw numbers and
strictly increasing line numbers. -/
theorem process_file_monotone (lines : List LogLine) (rs : List PGRAPHMethod)
    (h : _process_file lines = .ok rs) :
    rs.Pairwise (fun a b => a.draw_number ≤ b.draw_number) ∧
    rs.Pairwise (fun a b => a.line_number < b.line_number) :=
  ⟨chain_draw_le (processGo_chain lines 1 1 false rs h).2,
   (processGo_lines lines 1 1 false rs h).2⟩

/-- C4: `is_stateful` is true for every record whose device class is not 0x97,
regardless of all other fields; for class 0x97 it is false whenever the record
lies inside a begin/end block, and otherwise it is true exactly when the
operation is outside the fixed stateless allow-list. -/
theorem is_stateful_characterisation (m : PGRAPHMethod) :
    (m.nv_class ≠ 0x97 → m.is_stateful = true) ∧
    (m.nv_class = 0x97 → m.in_begin_end_block = true → m.is_stateful = false) ∧
    (m.nv_class = 0x97 → m.in_begin_end_block = false →
      (m.is_stateful = true ↔
        m.nv_op ∉ ([0x100, 0x110, 0x120, 0x12C, 0x130, 0x1710, 0x17D0, 0x17FC,
          0x1D70] : List Nat))) := by
  refine ⟨?_, ?_, ?_⟩
  · intro h
    simp [PGRAPHMethod.is_stateful, h]
  · intro h1 h2
    simp [PGRAPHMethod.is_stateful, h1, h2]
  · intro h1 h2
    simp [PGRAPHMethod.is_stateful, h1, h2, STATELESS_COMMANDS]

/-- C4 witness: a record targeting class 0x39 is classified stateful. -/
theorem is_stateful_characterisation_witness : c4Method.is_stateful = true :=
  (is_stateful_characterisation c4Method).1 (by decide)

/-- C8 counterexample: reading `is_stateful` or `is_non_portable` on the
marker Annotation raises an attribute error (modelled `none`) instead of
returning false. -/
theorem annotation_classifier_cex :
    PGRAPHRecord.is_stateful_attr (.comment "END OF SETUP COMMANDS") = none ∧
    ¬(PGRAPHRecord.is_stateful_attr (.comment "END OF SETUP COMMANDS") = some false) ∧
    ¬(PGRAPHRecord.is_non_portable_attr (.comment "END OF SETUP COMMANDS") = some false) :=
  ⟨rfl, by decide, by decide⟩

/-- C8 (amended): on every Annotation, `is_stateful` and `is_non_portable` do
not return a value at all — the comment object lacks the dataclass fields the
properties read, so the access fails; in particular an Annotation is never
classified as stateful or non-portable. -/
theorem annotation_classifiers_raise (s : String) :
    PGRAPHRecord.is_stateful_attr (.comment s) = none ∧
    PGRAPHRecord.is_non_portable_attr (.comment s) = none :=
  ⟨rfl, rfl⟩

/-- When every command is inside the requested window, the scan of
`_filter_draws` hoists nothing and retains everything in order. -/
theorem filterLoop_retain_all (W : Nat) :
    ∀ (l : List PGRAPHMethod) (d : List (Nat × PGRAPHMethod)) (r : List PGRAPHMethod),
      (∀ c ∈ l, 1 ≤ c.draw_number ∧ c.draw_number ≤ W) →
      filterLoop 1 (1 + W) l d r = (d, r ++ l) := by
  intro l
  induction l with
  | nil =>
    intro d r _
    simp [filterLoop]
  | cons c rest ih =>
    intro d r h
    have hc := h c (by simp)
    have hrest : ∀ x ∈ rest, 1 ≤ x.draw_number ∧ x.draw_number ≤ W :=
      fun x hx => h x (by simp [hx])
    simp only [filterLoop]
    rw [if_neg (by omega), if_neg (by omega), ih d (r ++ [c]) hrest]
    simp

/-- C6 (amended): filtering with start draw 1 and a window covering every draw
reproduces the original list with the marker Annotation prepended (the marker
trails the empty reconstructed state prefix, so it precedes the in-window
commands rather than following them). -/
theorem filter_start_one_prepends_marker (l : List PGRAPHMethod) (W : Nat)
    (h : ∀ c ∈ l, 1 ≤ c.draw_number ∧ c.draw_number ≤ W) :
    _filter_draws l 1 W =
      PGRAPHRecord.comment "END OF SETUP COMMANDS" :: l.map PGRAPHRecord.method := by
  unfold _filter_draws
  rw [filterLoop_retain_all W l [] [] h]
  simp [List.mergeSort_nil]

/-- C6 witness: the amended identity on a concrete one-command list. -/
theorem filter_start_one_prepends_marker_witness :
    _filter_draws [c6Method] 1 1 =
      PGRAPHRecord.comment "END OF SETUP COMMANDS" :: [c6Method].map PGRAPHRecord.method :=
  filter_start_one_prepends_marker [c6Method] 1 (by decide)

unseal List.merge List.mergeSort in
/-- C6 counterexample: on a one-command list the filtered result carries the
marker in front of the command, not after it, refuting the claim that the
original list gains only a trailing marker. -/
theorem filter_marker_not_trailing_cex :
    _filter_draws [c6Method] 1 1 =
      [PGRAPHRecord.comment "END OF SETUP COMMANDS", PGRAPHRecord.method c6Method] ∧
    ¬(_filter_draws [c6Method] 1 1 =
      [PGRAPHRecord.method c6Method, PGRAPHRecord.comment "END OF SETUP COMMANDS"]) := by
  constructor
  · decide
  · decide

/-- A line whose parse fails with a fixed message at every tracker state makes
the whole run fail with that message, whatever successfully parsed lines
precede or follow it. -/
theorem processGo_append_error (bad : LogLine) (e : String)
    (hbad : ∀ ln dn ib, parseLine ln dn ib bad = .error e) :
    ∀ (pre : List LogLine) (ln dn : Nat) (ib : Bool) (rsp : List PGRAPHMethod),
      processGo ln dn ib pre = .ok rsp →
      ∀ post, processGo ln dn ib (pre ++ bad :: post) = .error e := by
  intro pre
  induction pre with
  | nil =>
    intro ln dn ib rsp _ post
    simp only [List.nil_append, processGo, hbad ln dn ib]
  | cons l pre ih =>
    intro ln dn ib rsp hprs post
    rw [List.cons_append]
    simp only [processGo] at hprs ⊢
    split at hprs
    · exact absurd hprs (by simp)
    · exact ih (ln + 1) dn ib rsp hprs post
    · rename_i m heq
      split at hprs
      · exact absurd hprs (by simp)
      · rename_i ms heq2
        have hih := ih (ln + 1) _ _ ms heq2 post
        simp only [hih]

/-- C7 (amended): the five argument sub-forms of the annotated dialect are
tried in priority order — arrow-decoded float, bitfield, symbolic enumerator,
bare hex, decimal-with-hex — and the first match determines the value, the
description and the float, except that in the float sub-form the arrow token
must also convert as a Python float: a class-matching token the conversion
rejects aborts with the float-conversion error instead of producing a record.
When none of the five matches, `_process_pretty_param` fails with a message
naming the offending fragment, and a run whose log contains such a line
aborts with that error, producing no command list at all. -/
theorem pretty_param_priority_and_error (p : String) :
    (∀ ds fs, floatArgMatch p.data = some (ds, fs) → pyFloatOk fs = true →
      _process_pretty_param p = .ok (hexToNat ds, "", some (String.mk fs))) ∧
    (∀ ds fs, floatArgMatch p.data = some (ds, fs) → pyFloatOk fs = false →
      _process_pretty_param p =
        .error ("could not convert string to float: " ++ "\x27" ++ String.mk fs ++ "\x27")) ∧
    (floatArgMatch p.data = none → ∀ g1 ds, bitvecArgMatch p.data = some (g1, ds) →
      _process_pretty_param p = .ok (hexToNat ds, String.mk g1, none)) ∧
    (floatArgMatch p.data = none → bitvecArgMatch p.data = none →
      ∀ ws ds, namedArgMatch p.data = some (ws, ds) →
      _process_pretty_param p = .ok (hexToNat ds, String.mk ws, none)) ∧
    (floatArgMatch p.data = none → bitvecArgMatch p.data = none →
      namedArgMatch p.data = none → ∀ ds, hexArgMatch p.data = some ds →
      _process_pretty_param p = .ok (hexToNat ds, "", none)) ∧
    (floatArgMatch p.data = none → bitvecArgMatch p.data = none →
      namedArgMatch p.data = none → hexArgMatch p.data = none →
      ∀ ds, rawValArgMatch p.data = some ds →
      _process_pretty_param p = .ok (hexToNat ds, "", none)) ∧
    (floatArgMatch p.data = none → bitvecArgMatch p.data = none →
      namedArgMatch p.data = none → hexArgMatch p.data = none →
      rawValArgMatch p.data = none →
      _process_pretty_param p =
        .error ("Failed to process pretty param " ++ "\x27" ++ p ++ "\x27")) ∧
    (∀ (pre : List LogLine) (rsp : List PGRAPHMethod), _process_file pre = .ok rsp →
      ∀ ch cls nm op post,
        floatArgMatch p.data = none → bitvecArgMatch p.data = none →
        namedArgMatch p.data = none → hexArgMatch p.data = none →
        rawValArgMatch p.data = none →
        _process_file (pre ++ .pretty ch cls nm op p :: post) =
          .error ("Failed to process pretty param " ++ "\x27" ++ p ++ "\x27")) := by
  refine ⟨?_, ?_, ?_, ?_, ?_, ?_, ?_, ?_⟩
  · intro ds fs h hok
    simp [_process_pretty_param, h, hok]
  · intro ds fs h hok
    simp [_process_pretty_param, h, hok]
  · intro h0 g1 ds h
    simp [_process_pretty_param, h0, h]
  · intro h0 h1 ws ds h
    simp [_process_pretty_param, h0, h1, h]
  · intro h0 h1 h2 ds h
    simp [_process_pretty_param, h0, h1, h2, h]
  · intro h0 h1 h2 h3 ds h
    simp [_process_pretty_param, h0, h1, h2, h3, h]
  · intro h0 h1 h2 h3 h4
    simp [_process_pretty_param, h0, h1, h2, h3, h4]
  · intro pre rsp hok ch cls nm op post h0 h1 h2 h3 h4
    have herr : _process_pretty_param p =
        .error ("Failed to process pretty param " ++ "\x27" ++ p ++ "\x27") := by
      simp [_process_pretty_param, h0, h1, h2, h3, h4]
    exact processGo_append_error (.pretty ch cls nm op p) _
      (fun ln dn ib => by simp [parseLine, herr]) pre 1 1 false rsp hok post

/-- C7 witness: the argument text SRCCOPY matches none of the five sub-forms
and parsing it fails with a message naming it. -/
theorem pretty_param_priority_witness :
    _process_pretty_param "SRCCOPY" =
      .error ("Failed to process pretty param " ++ "\x27" ++ "SRCCOPY" ++ "\x27") :=
  (pretty_param_priority_and_error "SRCCOPY").2.2.2.2.2.2.1 (by rfl) (by rfl) (by rfl)
    (by rfl) (by rfl)

/-- C7 counterexample: the argument text matches the float sub-form first
(hex value, arrow, then a token of the float character class), yet the first
match does not determine a record: the token does not convert as a Python
float, so the source aborts with a ValueError instead of producing the
values. -/
theorem pretty_param_float_conversion_cex :
    floatArgMatch ("0x0 => ..").data = some (['0'], ['.', '.']) ∧
    _process_pretty_param "0x0 => .." =
      .error ("could not convert string to float: " ++ "\x27" ++ ".." ++ "\x27") ∧
    ¬(_process_pretty_param "0x0 => .." = .ok (0, "", some "..")) := by
  refine ⟨by decide, by rfl, ?_⟩
  intro h
  rw [show _process_pretty_param "0x0 => .." =
      .error ("could not convert string to float: " ++ "\x27" ++ ".." ++ "\x27") from rfl] at h
  exact absurd h (by simp)

/-- A list has no element with operation `k` exactly when `lastWith` finds
none. -/
theorem lastWith_eq_none (k : Nat) :
    ∀ cs : List PGRAPHMethod, (lastWith k cs = none ↔ ∀ c ∈ cs, ¬(c.nv_op = k)) := by
  intro cs
  induction cs with
  | nil => simp [lastWith]
  | cons c cs ih =>
    constructor
    · intro h
      rcases hlw : lastWith k cs with _ | v
      · rw [lastWith, hlw, Option.none_orElse] at h
        intro x hx
        rcases List.mem_cons.mp hx with rfl | hx
        · intro hk
          rw [if_pos (by simp [hk])] at h
          cases h
        · exact (ih.mp hlw) x hx
      · rw [lastWith, hlw, Option.some_orElse] at h
        cases h
    · intro h
      rw [lastWith, ih.mpr (fun x hx => h x (List.mem_cons_of_mem _ hx)),
        Option.none_orElse, if_neg (by simp [h c (List.mem_cons_self _ _)])]

/-- The command found by `lastWith` is in the list and carries operation
`k`. -/
theorem lastWith_some (k : Nat) :
    ∀ (cs : List PGRAPHMethod) (v : PGRAPHMethod),
      lastWith k cs = some v → v ∈ cs ∧ v.nv_op = k := by
  intro cs
  induction cs with
  | nil =>
    intro v h
    simp [lastWith] at h
  | cons c cs ih =>
    intro v h
    rw [lastWith] at h
    rcases hlw : lastWith k cs with _ | w
    · rw [hlw, Option.none_orElse] at h
      split at h
      · rename_i hck
        injection h with h
        subst h
        exact ⟨List.mem_cons_self _ _, beq_iff_eq.mp hck⟩
      · cases h
    · rw [hlw, Option.some_orElse] at h
      injection h with h
      subst h
      obtain ⟨h1, h2⟩ := ih w hlw
      exact ⟨List.mem_cons_of_mem _ h1, h2⟩

/-- Membership in `keepLast` is exactly being the last occurrence of the own
operation. -/
theorem mem_keepLast : ∀ (cs : List PGRAPHMethod) (v : PGRAPHMethod),
    (v ∈ keepLast cs ↔ lastWith v.nv_op cs = some v) := by
  intro cs
  induction cs with
  | nil =>
    intro v
    simp [keepLast, lastWith]
  | cons c cs ih =>
    intro v
    simp only [keepLast]
    by_cases hany : cs.any (fun c2 => c2.nv_op == c.nv_op) = true
    · rw [if_pos hany, ih v, lastWith]
      constructor
      · intro h
        rw [h, Option.some_orElse]
      · intro h
        rcases hlw : lastWith v.nv_op cs with _ | w
        · rw [hlw, Option.none_orElse] at h
          split at h
          · rename_i hck
            injection h with h
            subst h
            obtain ⟨c2, hc2, hop⟩ := List.any_eq_true.mp hany
            exact absurd (beq_iff_eq.mp hop) ((lastWith_eq_none _ cs).mp hlw c2 hc2)
          · cases h
        · rw [hlw, Option.some_orElse] at h
          injection h with h
          subst h
          rfl
    · rw [if_neg hany]
      constructor
      · intro h
        rcases List.mem_cons.mp h with rfl | h2
        · have hnone : lastWith v.nv_op cs = none := by
            refine (lastWith_eq_none _ cs).mpr ?_
            intro x hx hop
            exact hany (List.any_eq_true.mpr ⟨x, hx, by simp [hop]⟩)
          rw [lastWith, hnone, Option.none_orElse, if_pos (by simp)]
        · rw [lastWith, (ih v).mp h2, Option.some_orElse]
      · intro h
        rw [lastWith] at h
        rcases hlw : lastWith v.nv_op cs with _ | w
        · rw [hlw, Option.none_orElse] at h
          split at h
          · injection h with h
            exact List.mem_cons.mpr (Or.inl h.symm)
          · cases h
        · rw [hlw, Option.some_orElse] at h
          injection h with h
          subst h
          exact List.mem_cons.mpr (Or.inr ((ih w).mpr hlw))

/-- The last-occurrence list keeps only pairwise distinct commands. -/
theorem keepLast_nodup : ∀ cs : List PGRAPHMethod, (keepLast cs).Nodup := by
  intro cs
  induction cs with
  | nil => simp [keepLast]
  | cons c cs ih =>
    simp only [keepLast]
    split
    · exact ih
    · rename_i hany
      refine List.nodup_cons.mpr ⟨?_, ih⟩
      intro hmem
      obtain ⟨hc, _⟩ := lastWith_some _ cs c ((mem_keepLast cs c).mp hmem)
      exact hany (List.any_eq_true.mpr ⟨c, hc, by simp⟩)

/-- The last-occurrence list is a sublist of its input. -/
theorem keepLast_sublist : ∀ cs : List PGRAPHMethod, (keepLast cs).Sublist cs := by
  intro cs
  induction cs with
  | nil => simp [keepLast]
  | cons c cs ih =>
    simp only [keepLast]
    split
    · exact ih.cons c
    · exact ih.cons₂ c

/-- Lookup of an association-list cons. -/
theorem dlookup_cons (e : Nat × PGRAPHMethod) (d : List (Nat × PGRAPHMethod)) (k : Nat) :
    dlookup (e :: d) k = if e.1 == k then some e.2 else dlookup d k := by
  cases hpe : (e.1 == k) <;> simp [dlookup, List.find?_cons, hpe]

/-- Lookup after a dict assignment: the assigned key now maps to the new
command, every other key is untouched. -/
theorem dlookup_dictInsert (c : PGRAPHMethod) :
    ∀ (d : List (Nat × PGRAPHMethod)) (k : Nat),
      dlookup (dictInsert d c) k = if k = c.nv_op then some c else dlookup d k := by
  intro d
  induction d with
  | nil =>
    intro k
    by_cases hk : k = c.nv_op
    · subst hk
      simp [dictInsert, dlookup_cons]
    · simp [dictInsert, dlookup_cons, hk, dlookup, Ne.symm hk]
  | cons e d ih =>
    intro k
    simp only [dictInsert]
    split
    · rename_i hek
      have he : e.1 = c.nv_op := beq_iff_eq.mp hek
      by_cases hk : k = c.nv_op
      · subst hk
        simp [dlookup_cons]
      · rw [dlookup_cons, if_neg (by simp [Ne.symm hk]), if_neg hk, dlookup_cons,
          if_neg (by simp [he, Ne.symm hk])]
    · rename_i hek
      by_cases hk : k = c.nv_op
      · subst hk
        rw [dlookup_cons, if_neg (by simpa using hek), ih, if_pos rfl, if_pos rfl]
      · rw [dlookup_cons, if_neg hk, dlookup_cons, ih, if_neg hk]

/-- Every key of the dict after an assignment is the assigned key or an old
key. -/
theorem dictInsert_keys (c : PGRAPHMethod) :
    ∀ d : List (Nat × PGRAPHMethod), ∀ k ∈ (dictInsert d c).map Prod.fst,
      k = c.nv_op ∨ k ∈ d.map Prod.fst := by
  intro d
  induction d with
  | nil =>
    intro k hk
    simp [dictInsert] at hk
    exact Or.inl hk
  | cons e d ih =>
    intro k hk
    simp only [dictInsert] at hk
    split at hk
    · simp only [List.map_cons, List.mem_cons] at hk
      rcases hk with rfl | hk
      · exact Or.inl rfl
      · exact Or.inr (by simp [hk])
    · simp only [List.map_cons, List.mem_cons] at hk
      rcases hk with rfl | hk
      · exact Or.inr (by simp)
      · rcases ih k hk with h | h
        · exact Or.inl h
        · exact Or.inr (by simp [h])

/-- A dict assignment preserves distinctness of keys. -/
theorem dictInsert_keys_nodup (c : PGRAPHMethod) :
    ∀ d : List (Nat × PGRAPHMethod), (d.map Prod.fst).Nodup →
      ((dictInsert d c).map Prod.fst).Nodup := by
  intro d
  induction d with
  | nil =>
    intro _
    simp [dictInsert]
  | cons e d ih =>
    intro hnd
    rw [List.map_cons, List.nodup_cons] at hnd
    simp only [dictInsert]
    split
    · rename_i hek
      rw [List.map_cons, List.nodup_cons]
      exact ⟨by rw [← beq_iff_eq.mp hek]; exact hnd.1, hnd.2⟩
    · rename_i hek
      rw [List.map_cons, List.nodup_cons]
      refine ⟨?_, ih hnd.2⟩
      intro hmem
      rcases dictInsert_keys c d e.1 hmem with h | h
      · exact hek (by simp [h])
      · exact hnd.1 h

/-- Every dict entry maps an operation to a command carrying that exact
operation. -/
theorem dictInsert_op_inv (c : PGRAPHMethod) :
    ∀ d : List (Nat × PGRAPHMethod), (∀ e ∈ d, e.2.nv_op = e.1) →
      ∀ e ∈ dictInsert d c, e.2.nv_op = e.1 := by
  intro d
  induction d with
  | nil =>
    intro _ e he
    simp [dictInsert] at he
    subst he
    rfl
  | cons e0 d ih =>
    intro hop e he
    simp only [dictInsert] at he
    split at he
    · rcases List.mem_cons.mp he with rfl | he
      · rfl
      · exact hop e (List.mem_cons_of_mem _ he)
    · rcases List.mem_cons.mp he with rfl | he
      · exact hop e (List.mem_cons_self _ _)
      · exact ih (fun x hx => hop x (List.mem_cons_of_mem _ hx)) e he

/-- Lookup after folding all candidates into the dict finds the last
occurrence of the key among the candidates, and otherwise looks in the
initial dict. -/
theorem dfold_lookup :
    ∀ (cs : List PGRAPHMethod) (d : List (Nat × PGRAPHMethod)) (k : Nat),
      dlookup (cs.foldl dictInsert d) k = ((lastWith k cs) <|> dlookup d k) := by
  intro cs
  induction cs with
  | nil =>
    intro d k
    simp [lastWith]
  | cons c cs ih =>
    intro d k
    rw [List.foldl_cons, ih (dictInsert d c) k, lastWith]
    rcases hlw : lastWith k cs with _ | w
    · rw [Option.none_orElse, dlookup_dictInsert]
      by_cases hk : k = c.nv_op
      · subst hk
        simp
      · rw [if_neg hk, if_neg (by simp [Ne.symm hk])]
        simp
    · simp

/-- Folding candidates into a dict with distinct keys keeps the keys
distinct. -/
theorem dfold_keys_nodup :
    ∀ (cs : List PGRAPHMethod) (d : List (Nat × PGRAPHMethod)),
      (d.map Prod.fst).Nodup → ((cs.foldl dictInsert d).map Prod.fst).Nodup := by
  intro cs
  induction cs with
  | nil => intro d h; exact h
  | cons c cs ih =>
    intro d h
    exact ih (dictInsert d c) (dictInsert_keys_nodup c d h)

/-- Folding candidates preserves the key/operation invariant of entries. -/
theorem dfold_op_inv :
    ∀ (cs : List PGRAPHMethod) (d : List (Nat × PGRAPHMethod)),
      (∀ e ∈ d, e.2.nv_op = e.1) → ∀ e ∈ cs.foldl dictInsert d, e.2.nv_op = e.1 := by
  intro cs
  induction cs with
  | nil => intro d h; exact h
  | cons c cs ih =>
    intro d h
    exact ih (dictInsert d c) (dictInsert_op_inv c d h)

/-- A lookup hit means the key is among the dict keys. -/
theorem dlookup_some_key (d : List (Nat × PGRAPHMethod)) (k : Nat) (v : PGRAPHMethod)
    (h : dlookup d k = some v) : k ∈ d.map Prod.fst := by
  rcases hf : (d.find? fun e => e.1 == k) with _ | e
  · rw [dlookup, hf] at h
    cases h
  · have h1b := List.find?_some hf
    have h1 : e.1 = k := by simpa using h1b
    subst h1
    exact List.mem_map.mpr ⟨e, List.mem_of_find?_eq_some hf, rfl⟩

/-- Under distinct keys, the dict values are exactly the lookup results. -/
theorem mem_vals_iff :
    ∀ d : List (Nat × PGRAPHMethod), (d.map Prod.fst).Nodup →
      ∀ v, (v ∈ d.map Prod.snd ↔ ∃ k, dlookup d k = some v) := by
  intro d
  induction d with
  | nil =>
    intro _ v
    simp [dlookup]
  | cons e d ih =>
    intro hnd v
    rw [List.map_cons, List.nodup_cons] at hnd
    simp only [List.map_cons, List.mem_cons]
    constructor
    · rintro (rfl | hv)
      · exact ⟨e.1, by simp [dlookup_cons]⟩
      · obtain ⟨k, hk⟩ := (ih hnd.2 v).mp hv
        refine ⟨k, ?_⟩
        rw [dlookup_cons, if_neg ?_]
        · exact hk
        · intro hke
          exact hnd.1 (beq_iff_eq.mp hke ▸ dlookup_some_key d k v hk)
    · rintro ⟨k, hk⟩
      rw [dlookup_cons] at hk
      split at hk
      · injection hk with hk
        exact Or.inl hk.symm
      · exact Or.inr ((ih hnd.2 v).mpr ⟨k, hk⟩)

/-- Under distinct keys and the key/operation invariant, the dict values are
pairwise distinct. -/
theorem vals_nodup :
    ∀ d : List (Nat × PGRAPHMethod), (d.map Prod.fst).Nodup →
      (∀ e ∈ d, e.2.nv_op = e.1) → (d.map Prod.snd).Nodup := by
  intro d
  induction d with
  | nil =>
    intro _ _
    simp
  | cons e d ih =>
    intro hnd hop
    rw [List.map_cons, List.nodup_cons] at hnd
    rw [List.map_cons, List.nodup_cons]
    refine ⟨?_, ih hnd.2 (fun x hx => hop x (List.mem_cons_of_mem _ hx))⟩
    intro hmem
    obtain ⟨e2, he2, hsnd⟩ := List.mem_map.mp hmem
    refine hnd.1 (List.mem_map.mpr ⟨e2, he2, ?_⟩)
    rw [← hop e2 (List.mem_cons_of_mem _ he2), hsnd, hop e (List.mem_cons_self _ _)]

/-- The values of the dict built from the candidate scan are exactly the
last-occurrence-per-operation commands. -/
theorem mem_dict_vals_iff_keepLast (cs : List PGRAPHMethod) (v : PGRAPHMethod) :
    v ∈ (cs.foldl dictInsert []).map Prod.snd ↔ v ∈ keepLast cs := by
  have hnd : ((cs.foldl dictInsert []).map Prod.fst).Nodup :=
    dfold_keys_nodup cs [] (by simp)
  rw [mem_vals_iff _ hnd v, mem_keepLast]
  constructor
  · rintro ⟨k, hk⟩
    rw [dfold_lookup] at hk
    have hk2 : lastWith k cs = some v := by
      rcases hlw : lastWith k cs with _ | w
      · rw [hlw, Option.none_orElse] at hk
        simp [dlookup] at hk
      · rw [hlw, Option.some_orElse] at hk
        exact hk
    obtain ⟨_, hop⟩ := lastWith_some k cs v hk2
    rw [← hop] at hk2
    exact hk2
  · intro h
    exact ⟨v.nv_op, by rw [dfold_lookup, h, Option.some_orElse]⟩

/-- With non-decreasing draw numbers, filtering the scanned part of the list
with a predicate that forces the scan condition is the same as filtering the
whole list. -/
theorem filter_takeWhile_eq (ed : Nat) (q : PGRAPHMethod → Bool)
    (himp : ∀ c, q c = true → c.draw_number < ed) :
    ∀ l : List PGRAPHMethod, l.Pairwise (fun a b => a.draw_number ≤ b.draw_number) →
      (l.takeWhile (fun c => decide (c.draw_number < ed))).filter q = l.filter q := by
  intro l
  induction l with
  | nil => simp
  | cons c rest ih =>
    intro hp
    rw [List.pairwise_cons] at hp
    by_cases hc : c.draw_number < ed
    · rw [List.takeWhile_cons, if_pos (by simpa using hc), List.filter_cons,
        List.filter_cons, ih hp.2]
    · rw [List.takeWhile_cons, if_neg (by simpa using hc)]
      simp only [List.filter_nil]
      symm
      rw [List.filter_eq_nil_iff]
      intro x hx hq
      rcases List.mem_cons.mp hx with rfl | hx
      · exact hc (himp x hq)
      · exact hc (lt_of_le_of_lt (hp.1 x hx) (himp x hq))

/-- The scan loop of `_filter_draws`, characterised: it walks exactly the
commands before the first one at or past the window end, folds the stateful
pre-window commands into the dict and retains the in-window commands in
order. -/
theorem filterLoop_eq (sd ed : Nat) (hse : sd ≤ ed) :
    ∀ (l : List PGRAPHMethod) (d : List (Nat × PGRAPHMethod)) (r : List PGRAPHMethod),
      filterLoop sd ed l d r =
        (((l.takeWhile (fun c => decide (c.draw_number < ed))).filter
            (fun c => decide (c.draw_number < sd) && c.is_stateful)).foldl dictInsert d,
         r ++ (l.takeWhile (fun c => decide (c.draw_number < ed))).filter
            (fun c => decide (sd ≤ c.draw_number))) := by
  intro l
  induction l with
  | nil =>
    intro d r
    simp [filterLoop]
  | cons c rest ih =>
    intro d r
    simp only [filterLoop]
    by_cases h1 : c.draw_number < sd
    · have hed : c.draw_number < ed := lt_of_lt_of_le h1 hse
      have hnw : ¬sd ≤ c.draw_number := by omega
      by_cases hs : c.is_stateful = true
      · rw [if_pos h1, if_pos hs, ih (dictInsert d c) r]
        simp [List.takeWhile_cons, List.filter_cons, hed, h1, hs, hnw]
      · have hsf : c.is_stateful = false := by
          revert hs
          cases c.is_stateful <;> simp
        rw [if_pos h1, if_neg hs, ih d r]
        simp [List.takeWhile_cons, List.filter_cons, hed, h1, hsf, hnw]
    · by_cases h2 : ed ≤ c.draw_number
      · have hne : ¬c.draw_number < ed := by omega
        rw [if_neg h1, if_pos h2]
        simp [List.takeWhile_cons, hne]
      · have hed : c.draw_number < ed := by omega
        have hw : sd ≤ c.draw_number := by omega
        rw [if_neg h1, if_neg h2, ih d (r ++ [c])]
        simp [List.takeWhile_cons, List.filter_cons, hed, h1, hw]

/-- Under strictly increasing line numbers, sorting the dict values by line
number yields exactly the last-occurrence-per-operation commands in original
order. -/
theorem dict_state_sorted_eq (l : List PGRAPHMethod) (S : Nat)
    (hl : l.Pairwise (fun a b => a.line_number < b.line_number)) :
    (((l.filter (fun c => decide (c.draw_number < S) && c.is_stateful)).foldl
        dictInsert []).map Prod.snd).mergeSort lineLe = lwwState l S := by
  have hcsl : (l.filter (fun c => decide (c.draw_number < S) && c.is_stateful)).Sublist l :=
    List.filter_sublist l
  set cs := l.filter (fun c => decide (c.draw_number < S) && c.is_stateful) with hcs
  have hcspw : cs.Pairwise (fun a b => a.line_number < b.line_number) :=
    List.Pairwise.sublist hcsl hl
  have hnd : ((cs.foldl dictInsert []).map Prod.fst).Nodup :=
    dfold_keys_nodup cs [] (by simp)
  have hop : ∀ e ∈ cs.foldl dictInsert [], e.2.nv_op = e.1 :=
    dfold_op_inv cs [] (by simp)
  have hvnd : ((cs.foldl dictInsert []).map Prod.snd).Nodup := vals_nodup _ hnd hop
  have hperm1 : ((cs.foldl dictInsert []).map Prod.snd).Perm (keepLast cs) :=
    (List.perm_ext_iff_of_nodup hvnd (keepLast_nodup cs)).mpr
      (fun v => mem_dict_vals_iff_keepLast cs v)
  have hperm2 : ((((cs.foldl dictInsert []).map Prod.snd)).mergeSort lineLe).Perm
      (keepLast cs) :=
    (List.mergeSort_perm _ lineLe).trans hperm1
  have hms_le : ((((cs.foldl dictInsert []).map Prod.snd)).mergeSort lineLe).Pairwise
      (fun a b => a.line_number ≤ b.line_number) := by
    have h := @List.sorted_mergeSort PGRAPHMethod lineLe
      (fun a b c h1 h2 => by
        simp only [lineLe, decide_eq_true_eq] at h1 h2 ⊢
        omega)
      (fun a b => by
        simp only [lineLe, Bool.or_eq_true, decide_eq_true_eq]
        omega)
      ((cs.foldl dictInsert []).map Prod.snd)
    exact h.imp (fun hab => by simpa [lineLe] using hab)
  have hmem : ∀ v ∈ (((cs.foldl dictInsert []).map Prod.snd)).mergeSort lineLe, v ∈ l :=
    fun v hv =>
      hcsl.subset ((keepLast_sublist cs).subset (hperm2.mem_iff.mp hv))
  have hlne : ∀ a ∈ l, ∀ b ∈ l, a ≠ b → a.line_number ≠ b.line_number := by
    intro a ha b hb hab
    exact List.Pairwise.forall (fun x y h => h.symm)
      (hl.imp (fun h => Nat.ne_of_lt h)) ha hb hab
  have hms_nd : ((((cs.foldl dictInsert []).map Prod.snd)).mergeSort lineLe).Nodup :=
    hperm2.nodup_iff.mpr (keepLast_nodup cs)
  have hms_ne : ((((cs.foldl dictInsert []).map Prod.snd)).mergeSort lineLe).Pairwise
      (fun a b => a.line_number ≠ b.line_number) :=
    List.Pairwise.imp_of_mem (fun ha hb hne => hlne _ (hmem _ ha) _ (hmem _ hb) hne) hms_nd
  have hms_lt : ((((cs.foldl dictInsert []).map Prod.snd)).mergeSort lineLe).Pairwise
      (fun a b => a.line_number < b.line_number) :=
    (hms_le.and hms_ne).imp (fun h => lt_of_le_of_ne h.1 h.2)
  have hkl_lt : (keepLast cs).Pairwise (fun a b => a.line_number < b.line_number) :=
    List.Pairwise.sublist (keepLast_sublist cs) hcspw
  haveI : IsAntisymm PGRAPHMethod (fun a b => a.line_number < b.line_number) :=
    ⟨fun a b h1 h2 => absurd (Nat.lt_trans h1 h2) (Nat.lt_irrefl _)⟩
  exact List.eq_of_perm_of_sorted hperm2 hms_lt hkl_lt

/-- Under strictly increasing line numbers, the last occurrence of each
operation is exactly the occurrence with the highest line number. -/
theorem lastWith_iff_max (k : Nat) :
    ∀ cs : List PGRAPHMethod, cs.Pairwise (fun a b => a.line_number < b.line_number) →
      ∀ c, (lastWith k cs = some c ↔
        (c ∈ cs ∧ c.nv_op = k ∧
          ∀ c2 ∈ cs, c2.nv_op = k → c2.line_number ≤ c.line_number)) := by
  intro cs
  induction cs with
  | nil =>
    intro _ c
    simp [lastWith]
  | cons a cs ih =>
    intro hpw c
    rw [List.pairwise_cons] at hpw
    rw [lastWith]
    rcases hlw : lastWith k cs with _ | v
    · rw [Option.none_orElse]
      have hnone := (lastWith_eq_none k cs).mp hlw
      constructor
      · intro h
        split at h
        · rename_i hak
          injection h with h
          subst h
          refine ⟨List.mem_cons_self _ _, beq_iff_eq.mp hak, ?_⟩
          intro c2 hc2 hop2
          rcases List.mem_cons.mp hc2 with rfl | hc2
          · exact Nat.le_refl _
          · exact absurd hop2 (hnone c2 hc2)
        · cases h
      · rintro ⟨hmem, hopk, hmax⟩
        rcases List.mem_cons.mp hmem with rfl | hmem2
        · rw [if_pos (by simp [hopk])]
        · exact absurd hopk (hnone c hmem2)
    · rw [Option.some_orElse]
      obtain ⟨hvmem, hvop⟩ := lastWith_some k cs v hlw
      constructor
      · intro h
        injection h with h
        subst h
        refine ⟨List.mem_cons_of_mem _ hvmem, hvop, ?_⟩
        intro c2 hc2 hop2
        rcases List.mem_cons.mp hc2 with rfl | hc2
        · exact Nat.le_of_lt (hpw.1 _ hvmem)
        · exact ((ih hpw.2 _).mp hlw).2.2 c2 hc2 hop2
      · rintro ⟨hmem, hopk, hmax⟩
        rcases List.mem_cons.mp hmem with rfl | hmem2
        · exact absurd (hmax v (List.mem_cons_of_mem _ hvmem) hvop)
            (not_le.mpr (hpw.1 v hvmem))
        · rw [← hlw]
          exact ((ih hpw.2 c).mpr
            ⟨hmem2, hopk, fun c2 hc2 hop2 => hmax c2 (List.mem_cons_of_mem _ hc2) hop2⟩).symm
            ▸ rfl

/-- The full characterisation of `_filter_draws` on a list with non-decreasing
draw numbers and strictly increasing line numbers: the result is the
last-writer-wins state commands of the pre-window part in line order, the
marker Annotation, then the in-window commands. -/
theorem filter_draws_eq (l : List PGRAPHMethod) (S W : Nat)
    (hd : l.Pairwise (fun a b => a.draw_number ≤ b.draw_number))
    (hl : l.Pairwise (fun a b => a.line_number < b.line_number)) :
    _filter_draws l S W =
      (lwwState l S).map PGRAPHRecord.method ++
        PGRAPHRecord.comment "END OF SETUP COMMANDS" ::
          (l.filter (fun c => decide (S ≤ c.draw_number) &&
            decide (c.draw_number < S + W))).map PGRAPHRecord.method := by
  simp only [_filter_draws]
  rw [filterLoop_eq S (S + W) (Nat.le_add_right S W) l [] []]
  have hcand : ((l.takeWhile fun c => decide (c.draw_number < S + W)).filter
      (fun c => decide (c.draw_number < S) && c.is_stateful)) =
      l.filter (fun c => decide (c.draw_number < S) && c.is_stateful) :=
    filter_takeWhile_eq (S + W) _
      (fun c hq => by
        rw [Bool.and_eq_true, decide_eq_true_eq] at hq
        omega) l hd
  have hwin0 : ((l.takeWhile fun c => decide (c.draw_number < S + W)).filter
      (fun c => decide (S ≤ c.draw_number))) =
      ((l.takeWhile fun c => decide (c.draw_number < S + W)).filter
        (fun c => decide (S ≤ c.draw_number) && decide (c.draw_number < S + W))) :=
    List.filter_congr (fun x hx => by
      have hx2 : decide (x.draw_number < S + W) = true := by
        simpa using List.mem_takeWhile_imp hx
      rw [hx2, Bool.and_true])
  have hwin : ((l.takeWhile fun c => decide (c.draw_number < S + W)).filter
      (fun c => decide (S ≤ c.draw_number))) =
      l.filter (fun c => decide (S ≤ c.draw_number) && decide (c.draw_number < S + W)) := by
    rw [hwin0]
    exact filter_takeWhile_eq (S + W) _
      (fun c hq => by
        rw [Bool.and_eq_true, decide_eq_true_eq, decide_eq_true_eq] at hq
        exact hq.2) l hd
  rw [hcand, hwin, dict_state_sorted_eq l S hl]
  simp

/-- C1: for a command list with non-decreasing draw numbers and strictly
increasing line numbers (both hold for every parsed list), the filtered
result is the hoisted state commands sorted by line number, then the marker
Annotation, then the in-window commands in original order; the hoisted state
set contains, for each distinct stateful operation seen before draw `S`,
exactly the occurrence with the highest line number. -/
theorem draw_range_filter_main (l : List PGRAPHMethod) (S W : Nat)
    (hd : l.Pairwise (fun a b => a.draw_number ≤ b.draw_number))
    (hl : l.Pairwise (fun a b => a.line_number < b.line_number)) :
    _filter_draws l S W =
      (lwwState l S).map PGRAPHRecord.method ++
        PGRAPHRecord.comment "END OF SETUP COMMANDS" ::
          (l.filter (fun c => decide (S ≤ c.draw_number) &&
            decide (c.draw_number < S + W))).map PGRAPHRecord.method ∧
    (lwwState l S).Pairwise (fun a b => a.line_number < b.line_number) ∧
    ∀ c, (c ∈ lwwState l S ↔
      (c ∈ l ∧ c.draw_number < S ∧ c.is_stateful = true ∧
        ∀ c2 ∈ l, c2.draw_number < S → c2.is_stateful = true → c2.nv_op = c.nv_op →
          c2.line_number ≤ c.line_number)) := by
  refine ⟨filter_draws_eq l S W hd hl, ?_, ?_⟩
  · exact List.Pairwise.sublist ((keepLast_sublist _).trans (List.filter_sublist l)) hl
  · intro c
    rw [lwwState, mem_keepLast,
      lastWith_iff_max c.nv_op _ (List.Pairwise.sublist (List.filter_sublist l) hl) c]
    constructor
    · rintro ⟨hmem, -, hmax⟩
      rw [List.mem_filter] at hmem
      have hc := hmem.2
      rw [Bool.and_eq_true, decide_eq_true_eq] at hc
      refine ⟨hmem.1, hc.1, hc.2, ?_⟩
      intro c2 hc2 hd2 hs2 hop2
      exact hmax c2 (List.mem_filter.mpr ⟨hc2, by simp [hd2, hs2]⟩) hop2
    · rintro ⟨hmem, hdlt, hst, hmax⟩
      refine ⟨List.mem_filter.mpr ⟨hmem, by simp [hdlt, hst]⟩, rfl, ?_⟩
      intro c2 hc2 hop2
      rw [List.mem_filter] at hc2
      have hc := hc2.2
      rw [Bool.and_eq_true, decide_eq_true_eq] at hc
      exact hmax c2 hc2.1 hc.1 hc.2 hop2

/-- C1 witness: the filter characterisation instantiated on the concrete list
`c1L` with start draw 2 and window 1. -/
theorem draw_range_filter_main_witness :
    _filter_draws c1L 2 1 =
      (lwwState c1L 2).map PGRAPHRecord.method ++
        PGRAPHRecord.comment "END OF SETUP COMMANDS" ::
          (c1L.filter (fun c => decide (2 ≤ c.draw_number) &&
            decide (c.draw_number < 2 + 1))).map PGRAPHRecord.method :=
  (draw_range_filter_main c1L 2 1 (by decide) (by decide)).1

/-- C9: with window size 0 (the argparse default of `max_draws` when only
`start_draw` is given) the filter retains no in-window command at all: the
result is exactly the sorted last-writer-wins state commands hoisted from the
commands before draw `S`, followed by the marker Annotation, and nothing
else. -/
theorem filter_window_zero_default (l : List PGRAPHMethod) (S : Nat) (hS : 1 ≤ S)
    (hd : l.Pairwise (fun a b => a.draw_number ≤ b.draw_number))
    (hl : l.Pairwise (fun a b => a.line_number < b.line_number)) :
    _filter_draws l S 0 =
      (lwwState l S).map PGRAPHRecord.method ++
        [PGRAPHRecord.comment "END OF SETUP COMMANDS"] := by
  rw [filter_draws_eq l S 0 hd hl]
  have hnil : l.filter (fun c => decide (S ≤ c.draw_number) &&
      decide (c.draw_number < S + 0)) = [] := by
    rw [List.filter_eq_nil_iff]
    intro a _ ha
    rw [Bool.and_eq_true, decide_eq_true_eq, decide_eq_true_eq] at ha
    omega
  rw [hnil]
  simp

/-- C9 witness: the zero-window filter on the concrete list `c9L` with start
draw 2. -/
theorem filter_window_zero_default_witness :
    _filter_draws c9L 2 0 =
      (lwwState c9L 2).map PGRAPHRecord.method ++
        [PGRAPHRecord.comment "END OF SETUP COMMANDS"] :=
  filter_window_zero_default c9L 2 (by decide) (by decide) (by decide)

set_option maxHeartbeats 2000000 in
/-- Every rendered command line begins with one of five character triples,
none of which is the busy-wait line opening. -/
theorem toc_shape (c : PGRAPHRecord) (r p : Bool) :
    ∃ rest : List Char,
      (c.to_c r p).data = ' ' :: ' ' :: 'p' :: rest ∨
      (c.to_c r p).data = ' ' :: ' ' :: '/' :: rest ∨
      (c.to_c r p).data = '/' :: '/' :: 'p' :: rest ∨
      (c.to_c r p).data = '/' :: '/' :: 'P' :: rest ∨
      (c.to_c r p).data = ' ' :: ' ' :: 'P' :: rest := by
  rcases c with m | msg
  · simp only [PGRAPHRecord.to_c, PGRAPHMethod.to_c, push1_pbkit, push1f_pbkit,
      push_pbkitplusplus, pushf_pbkitplusplus, push1_to_pbkit, push1f_to_pbkit,
      push_to_pbkitplusplus, pushf_to_pbkitplusplus, Option.getD]
    repeat' split
    all_goals first
      | exact ⟨_, Or.inl rfl⟩
      | exact ⟨_, Or.inr (Or.inl rfl)⟩
      | exact ⟨_, Or.inr (Or.inr (Or.inl rfl))⟩
      | exact ⟨_, Or.inr (Or.inr (Or.inr (Or.inl rfl)))⟩
      | exact ⟨_, Or.inr (Or.inr (Or.inr (Or.inr rfl)))⟩
  · exact ⟨'/' :: ' ' :: msg.data, Or.inr (Or.inl rfl)⟩

/-- No rendered command line equals the busy-wait line. -/
theorem toc_ne_busy (c : PGRAPHRecord) (r p : Bool) :
    c.to_c r p ≠ busyWaitLine := by
  obtain ⟨rest, h⟩ := toc_shape c r p
  intro he
  have hd := congrArg String.data he
  have hb : busyWaitLine.data =
      ' ' :: ' ' :: 'w' :: ("hile (pb_busy()) \x7b\x7d").data := rfl
  rcases h with h | h | h | h | h <;> rw [h, hb] at hd <;>
    simp only [List.cons.injEq] at hd <;> exact absurd hd.2.2.1 (by decide)

/-- Busy-wait line count of the emit loop in the pbkit dialect: one busy wait
for every 33rd command, counted from the current flush counter. -/
theorem emitLoop_count_pbkit (retain : Bool) :
    ∀ (l : List PGRAPHRecord) (k : Nat), k ≤ MAX_COMMANDS_PER_FLUSH →
      (emitLoop retain false k l).count busyWaitLine =
        (k + l.length) / (MAX_COMMANDS_PER_FLUSH + 1) := by
  intro l
  induction l with
  | nil =>
    intro k hk
    simp only [emitLoop, List.count_nil, List.length_nil, Nat.add_zero,
      MAX_COMMANDS_PER_FLUSH] at *
    omega
  | cons c rest ih =>
    intro k hk
    simp only [emitLoop, Bool.not_false, if_true]
    have hne : (c.to_c retain false == busyWaitLine) = false := by
      simp [toc_ne_busy c retain false]
    by_cases hflush : k + 1 > MAX_COMMANDS_PER_FLUSH
    · rw [if_pos hflush]
      have hk32 : k = 32 := by
        simp only [MAX_COMMANDS_PER_FLUSH] at hk hflush
        omega
      subst hk32
      rw [List.count_cons, List.count_append, ih 0 (by simp [MAX_COMMANDS_PER_FLUSH]),
        hne]
      have hfl : flushLines.count busyWaitLine = 1 := by decide
      rw [hfl]
      simp only [MAX_COMMANDS_PER_FLUSH, List.length_cons, Nat.zero_add, if_false,
        Bool.false_eq_true]
      have h33 : 32 + (rest.length + 1) = rest.length + 33 := by omega
      rw [h33, Nat.add_div_right _ (by norm_num)]
      omega
    · rw [if_neg hflush]
      rw [List.count_cons, ih (k + 1) (by simp only [MAX_COMMANDS_PER_FLUSH] at *; omega),
        hne]
      simp only [List.length_cons, Bool.false_eq_true, if_false]
      have hkl : k + 1 + rest.length = k + (rest.length + 1) := by omega
      rw [hkl]
      omega

/-- The emit loop never prints a busy wait in the pbkitplusplus dialect. -/
theorem emitLoop_count_ppp (retain : Bool) :
    ∀ (l : List PGRAPHRecord) (k : Nat),
      (emitLoop retain true k l).count busyWaitLine = 0 := by
  intro l
  induction l with
  | nil =>
    intro k
    simp [emitLoop]
  | cons c rest ih =>
    intro k
    simp only [emitLoop, Bool.not_true, Bool.false_eq_true, if_false]
    rw [List.count_cons, ih k]
    simp [toc_ne_busy c retain true]

/-- C5 (amended): in the pbkit dialect the emitter inserts one forced
flush/reopen sequence after every 33rd emitted command (the counter must
exceed the capacity of 32), so emitting `n` commands produces exactly
`n / 33` busy-wait lines — in particular 65 commands produce one forced
flush, not two; in the pbkitplusplus dialect no busy-wait line is ever
emitted. -/
theorem emit_flush_count (commands : List PGRAPHRecord) (retain : Bool) :
    (_emit_commands commands retain false).count busyWaitLine =
      commands.length / (MAX_COMMANDS_PER_FLUSH + 1) ∧
    (_emit_commands commands retain true).count busyWaitLine = 0 := by
  constructor
  · simp only [_emit_commands, Bool.not_false, if_true]
    rw [List.count_append, List.count_append,
      emitLoop_count_pbkit retain commands 0 (by simp [MAX_COMMANDS_PER_FLUSH])]
    have h1 : (["  uint32_t *p;", "  p = pb_begin();"] : List String).count busyWaitLine
        = 0 := by decide
    have h2 : (["  pb_end(p);"] : List String).count busyWaitLine = 0 := by decide
    rw [h1, h2]
    simp
  · simp only [_emit_commands, Bool.not_true, Bool.false_eq_true, if_false]
    rw [List.count_append, List.count_append, emitLoop_count_ppp retain commands 0]
    have h1 : (["  Pushbuffer::Begin();"] : List String).count busyWaitLine = 0 := by
      decide
    have h2 : (["  Pushbuffer::End();"] : List String).count busyWaitLine = 0 := by
      decide
    rw [h1, h2]

/-- C5 counterexample: emitting 65 commands in the pbkit dialect produces
exactly one busy-wait flush sequence, not the two the claim asserts. -/
theorem flush_count_65_cex :
    (_emit_commands c5List false false).count busyWaitLine = 1 ∧
    ¬((_emit_commands c5List false false).count busyWaitLine = 2) := by
  constructor <;> decide

end NvToPbkit
